import Mathlib

/-!
# Verification of the `rusty-at-sudoku` core (src/lib.rs)

Shallow embedding of the sudoku grid model, the stream parser `read_from`,
the view iterators (`Rows`, `Cols`, `Squares`), the validity check
`is_valid`, the candidate computation `get_possible_values` and the
backtracking solver `solve_impl` / `solve`, together with proofs of the
specification's claims about them.

Conventions of the embedding:
* Rust's `Field` enum becomes the inductive `Field`; the `u8` payload is a
  `Nat` (its value is always a digit 1–9 in the program, carried here as a
  hypothesis where needed).
* Rust's fixed array `[Field; 81]` becomes a `List Field`; the type-level
  length 81 (`MAX_INDEX = MAX_COLS * MAX_ROWS = 81`) becomes the
  hypothesis `fields.length = 81` on theorems.
* Fallible code returns `Option` / an explicit result type; the
  out-of-bounds array-write panic inside `read_from` is a distinct
  constructor `ParseResult.panicOOB`, and the `None` return of `read_from`
  is `ParseResult.failure`.
* Iterators become the lists of elements they yield.
-/

namespace RustySudoku

/-- A cell: Rust `Field::Empty` or `Field::Filled(u8)` (src/lib.rs l.10-14). -/
inductive Field where
  | empty : Field
  | filled (d : Nat) : Field
  deriving DecidableEq

/-- The grid: Rust `struct Sudoku { fields: [Field; MAX_INDEX] }` with
`MAX_INDEX = 81` (src/lib.rs l.27-29).  The fixed length 81 is carried as a
hypothesis on theorems rather than in the type. -/
structure Sudoku where
  fields : List Field
  deriving DecidableEq

/-- Outcome of `Sudoku::read_from` (src/lib.rs l.33-63).  Rust returns
`Option<Sudoku>`; `failure` is its `None`.  The unchecked array write
`fields[index] = …` additionally panics when `index ≥ 81`; that abnormal
exit is the third constructor `panicOOB`. -/
inductive ParseResult where
  | ok (g : Sudoku) : ParseResult
  | failure : ParseResult
  | panicOOB : ParseResult
  deriving DecidableEq

/-- The token loop of `Sudoku::read_from` (src/lib.rs l.38-60).  The input
byte stream, read line by line and split on whitespace, is modelled as the
list of its whitespace-delimited tokens (each a list of characters);
the line structure is irrelevant to the loop body.  Per token: a token of
length ≠ 1 returns `None` (`failure`); a digit character must be 1–9 and is
written as `Filled`; `*` is written as `Empty`; anything else returns
`None`.  The write `fields[index] = …` is guarded here by `index < 81`
because the Rust indexing panics (`panicOOB`) outside the array bounds. -/
def read_loop : List (List Char) → List Field → Nat → ParseResult
  | [], fields, _ => ParseResult.ok ⟨fields⟩
  | t :: ts, fields, index =>
    match t with
    | [c] =>
      if c.isDigit then
        let digit := c.toNat - 48
        if 1 ≤ digit ∧ digit ≤ 9 then
          if index < 81 then
            read_loop ts (fields.set index (Field.filled digit)) (index + 1)
          else
            ParseResult.panicOOB
        else
          ParseResult.failure
      else if c = '*' then
        if index < 81 then
          read_loop ts (fields.set index Field.empty) (index + 1)
        else
          ParseResult.panicOOB
      else
        ParseResult.failure
    | _ => ParseResult.failure

/-- Rust `Sudoku::read_from` (src/lib.rs l.33-63): starts from an all-`Empty`
array of 81 cells and index 0 and runs the token loop. -/
def read_from (tokens : List (List Char)) : ParseResult :=
  read_loop tokens (List.replicate 81 Field.empty) 0

/-- A token the parser's per-token checks accept: exactly one character,
either an ASCII digit whose value is 1–9 or the blank marker `*`.  This is
exactly the condition under which the loop body of `read_from` neither
returns `None` nor skips the write. -/
def goodToken : List Char → Bool
  | [c] => (c.isDigit && decide (1 ≤ c.toNat - 48 ∧ c.toNat - 48 ≤ 9)) || decide (c = '*')
  | _ => false

/-- The cell list of a successful parse, `[]` otherwise (projection used to
state theorems about the grid `read_from` returns). -/
def ParseResult.cellsOut : ParseResult → List Field
  | ParseResult.ok g => g.fields
  | _ => []

/-- Returns `true` exactly on `ParseResult.ok` (Rust: the `Some` case). -/
def ParseResult.isOk : ParseResult → Bool
  | ParseResult.ok _ => true
  | _ => false

/-- Rust `Sudoku::set_field` (src/lib.rs l.65-67): `self.fields[index] = Filled(value)`.
Its only callers pass an in-bounds index (the first empty index), so the
out-of-bounds panic of the Rust indexing is unreachable; `List.set` is a
no-op out of bounds. -/
def Sudoku.set_field (g : Sudoku) (index : Nat) (value : Nat) : Sudoku :=
  ⟨g.fields.set index (Field.filled value)⟩

/-- Helper for `get_first_empty_index`: Rust's
`fields.iter().enumerate().find(|(_, &f)| f == Empty).map(|(i, _)| i)`
(src/lib.rs l.73-79), i.e. a scan carrying the running index. -/
def firstEmptyAux : List Field → Nat → Option Nat
  | [], _ => none
  | f :: fs, idx => if f = Field.empty then some idx else firstEmptyAux fs (idx + 1)

/-- Rust `Sudoku::get_first_empty_index` (src/lib.rs l.73-79). -/
def Sudoku.get_first_empty_index (g : Sudoku) : Option Nat :=
  firstEmptyAux g.fields 0

/-- The list of cells yielded by the `Rows` iterator (src/lib.rs l.240-252):
slices `fields[9r .. 9r+9]` for `curr_index = 0, 9, …, 72` (the iterator
stops once `curr_index ≥ MAX_INDEX = 81`, hence exactly 9 rows). -/
def rowsOf (fields : List Field) : List (List Field) :=
  (List.range 9).map (fun r => (fields.drop (9 * r)).take 9)

/-- The cells yielded by a `Col` iterator starting at `start_index = c`
(src/lib.rs l.276-288): `fields[c + 9k]` while `c + 9k < 81`; for the
start indices `c < 9` that `Cols` constructs this is exactly `k = 0…8`. -/
def colCells (fields : List Field) (c : Nat) : List Field :=
  (List.range 9).map (fun k => fields.getD (c + 9 * k) Field.empty)

/-- The cells yielded by a `Square` iterator for block `sq`
(src/lib.rs l.336-355): for `curr_index = k = 0…8` the cell at
`(k % 3 + 3 * (sq % 3)) + 9 * (k / 3 + 3 * (sq / 3))`. -/
def squareCells (fields : List Field) (sq : Nat) : List Field :=
  (List.range 9).map (fun k =>
    fields.getD ((k % 3 + 3 * (sq % 3)) + 9 * (k / 3 + 3 * (sq / 3))) Field.empty)

/-- Rust `Sudoku::rows` (src/lib.rs l.166-171): the 9 row views. -/
def Sudoku.rows (g : Sudoku) : List (List Field) :=
  rowsOf g.fields

/-- Rust `Sudoku::cols` (src/lib.rs l.178-183, l.295-310): the 9 column views,
`Cols` yielding `Col { start_index = c }` for `c = 0…8`. -/
def Sudoku.cols (g : Sudoku) : List (List Field) :=
  (List.range 9).map (colCells g.fields)

/-- Rust `Sudoku::squares` (src/lib.rs l.190-195, l.362-377): the 9 block views. -/
def Sudoku.squares (g : Sudoku) : List (List Field) :=
  (List.range 9).map (squareCells g.fields)

/-- Rust `Sudoku::row_of` (src/lib.rs l.173-176): `rows().nth(index / 9)`.
For `index < 81` the `nth` always succeeds; `.unwrap()` is modelled by the
`getD` default, which is never reached there. -/
def Sudoku.row_of (g : Sudoku) (index : Nat) : List Field :=
  (rowsOf g.fields).getD (index / 9) []

/-- Rust `Sudoku::col_of` (src/lib.rs l.185-188): `cols().nth(index % 9)`,
i.e. the column starting at `index % 9` (always < 9, so `nth` succeeds). -/
def Sudoku.col_of (g : Sudoku) (index : Nat) : List Field :=
  colCells g.fields (index % 9)

/-- Rust `Sudoku::square_of` (src/lib.rs l.197-202): block index
`(index % 9) / 3 + 3 * ((index / 9) / 3)`, then `squares().nth(…)`
(in bounds for `index < 81`). -/
def Sudoku.square_of (g : Sudoku) (index : Nat) : List Field :=
  squareCells g.fields ((index % 9) / 3 + 3 * ((index / 9) / 3))

/-- Rust `Sudoku::get_possible_values` (src/lib.rs l.81-97): filter the digits
`[1,…,9]` (in that order) by absence of `Filled(value)` from the row,
column and square of `index` (itertools `contains` = membership test). -/
def Sudoku.get_possible_values (g : Sudoku) (index : Nat) : List Nat :=
  [1, 2, 3, 4, 5, 6, 7, 8, 9].filter (fun value =>
    (!decide (Field.filled value ∈ g.row_of index)) &&
    (!decide (Field.filled value ∈ g.col_of index)) &&
    (!decide (Field.filled value ∈ g.square_of index)))

/-- The per-view check of `Sudoku::is_valid` (src/lib.rs l.136-161):
`is_filled` (no `Empty` member) and `is_unique` (itertools
`unique().count() == 9`, i.e. the number of distinct members, computed here
as `dedup.length`, is 9). -/
def viewOk (v : List Field) : Bool :=
  (!decide (Field.empty ∈ v)) && decide (v.dedup.length = 9)

/-- Rust `Sudoku::is_valid` (src/lib.rs l.135-164): every row, column and square
view passes `viewOk` (the three Rust loops with early `return false`). -/
def Sudoku.is_valid (g : Sudoku) : Bool :=
  g.rows.all viewOk && g.cols.all viewOk && g.squares.all viewOk

/-- Number of `Empty` cells; the termination measure of the solver claimed
by the specification (each recursive call of `solve_impl` strictly
decreases it). -/
def countEmpty (fields : List Field) : Nat :=
  fields.countP (fun f => decide (f = Field.empty))

theorem firstEmptyAux_spec (l : List Field) (k i : Nat)
    (h : firstEmptyAux l k = some i) : k ≤ i ∧ l[i - k]? = some Field.empty := by
  induction l generalizing k with
  | nil => simp [firstEmptyAux] at h
  | cons f fs ih =>
    by_cases hf : f = Field.empty
    · simp [firstEmptyAux, hf] at h
      subst h
      simp [hf]
    · simp [firstEmptyAux, hf] at h
      obtain ⟨h1, h2⟩ := ih (k + 1) h
      refine ⟨by omega, ?_⟩
      have hik : i - k = (i - (k + 1)) + 1 := by omega
      rw [hik]
      simpa using h2

theorem first_empty_spec (g : Sudoku) (i : Nat)
    (h : g.get_first_empty_index = some i) : g.fields[i]? = some Field.empty := by
  have := firstEmptyAux_spec g.fields 0 i h
  simpa using this.2

theorem countEmpty_set (l : List Field) (i : Nat) (v : Nat)
    (h : l[i]? = some Field.empty) :
    countEmpty (l.set i (Field.filled v)) + 1 = countEmpty l := by
  induction l generalizing i with
  | nil => simp at h
  | cons f fs ih =>
    cases i with
    | zero =>
      simp at h
      simp [countEmpty, List.countP_cons, h]
    | succ j =>
      simp at h
      have := ih j h
      simp [countEmpty, List.countP_cons] at this ⊢
      omega

mutual

/-- Rust `Sudoku::solve_impl` (src/lib.rs l.103-133): if there is no empty cell,
return the grid iff it `is_valid`; otherwise take the first empty index and
fold over its possible values, keeping the first recursive success (the
Rust `fold` returns `prev_result` unchanged once it is `Some`, which is the
first-success recursion of `solve_try`).  The proof argument of
`solve_try` records that the chosen index holds `Empty`, which is what
makes each recursive call decrease `countEmpty` (the specification's
termination argument). -/
def solve_impl (puzzle : Sudoku) : Option Sudoku :=
  match h : puzzle.get_first_empty_index with
  | none =>
    if puzzle.is_valid then some puzzle else none
  | some index =>
    solve_try puzzle index (first_empty_spec puzzle index h)
      (puzzle.get_possible_values index)
termination_by (countEmpty puzzle.fields, 1, 0)

/-- The candidate loop of `solve_impl` (src/lib.rs l.115-130): clone the
puzzle, set the chosen cell to the candidate value, recurse, and keep the
first `Some` answer (cloning means each branch works on its own copy, so
trying the next value restarts from the unchanged `puzzle`). -/
def solve_try (puzzle : Sudoku) (index : Nat)
    (h : puzzle.fields[index]? = some Field.empty) :
    List Nat → Option Sudoku
  | [] => none
  | value :: rest =>
    match solve_impl (puzzle.set_field index value) with
    | some answer => some answer
    | none => solve_try puzzle index h rest
termination_by values => (countEmpty puzzle.fields, 0, values.length)
decreasing_by
  · apply Prod.Lex.left
    have h2 := countEmpty_set puzzle.fields index value h
    simp only [Sudoku.set_field]
    omega
  · apply Prod.Lex.right
    apply Prod.Lex.right
    simp

end

/-- Rust `Sudoku::solve` (src/lib.rs l.99-101):
`Self::solve_impl(self).unwrap()`.  The `unwrap` panic on the `None`
(unsolvable) outcome is an abnormal exit that returns no grid; it is
modelled as the `none` outcome of this function. -/
def Sudoku.solve (g : Sudoku) : Option Sudoku :=
  solve_impl g

/-- Digit of a concrete fully-solved grid (a standard valid sudoku built
by shifting; used as a test vector for the theorems below). -/
def demoVal (i : Nat) : Nat :=
  (3 * ((i / 9) % 3) + (i / 9) / 3 + i % 9) % 9 + 1

/-- A concrete fully-filled valid grid. -/
def validGrid : Sudoku :=
  ⟨(List.range 81).map (fun i => Field.filled (demoVal i))⟩

/-- The token stream whose parse is `validGrid`. -/
def validTokens : List (List Char) :=
  (List.range 81).map (fun i => [Char.ofNat (48 + demoVal i)])

/-- A concrete grid violating distinctness in every row: all 81 cells hold
the digit 1. -/
def allOnes : Sudoku :=
  ⟨List.replicate 81 (Field.filled 1)⟩

/-! ## Parser lemmas -/

theorem read_loop_ok_good (ts : List (List Char)) :
    ∀ (fields : List Field) (index : Nat),
      (read_loop ts fields index).isOk = true → ∀ t ∈ ts, goodToken t = true := by
  induction ts with
  | nil =>
    intro fields index h t ht
    simp at ht
  | cons t ts ih =>
    intro fields index h u hu
    cases t with
    | nil => simp [read_loop, ParseResult.isOk] at h
    | cons c rest =>
      cases rest with
      | cons c2 rest2 => simp [read_loop, ParseResult.isOk] at h
      | nil =>
        simp only [read_loop] at h
        by_cases hd : c.isDigit = true
        · rw [if_pos hd] at h
          by_cases hr : 1 ≤ c.toNat - 48 ∧ c.toNat - 48 ≤ 9
          · rw [if_pos hr] at h
            by_cases hb : index < 81
            · rw [if_pos hb] at h
              rcases List.mem_cons.mp hu with rfl | hu2
              · simp [goodToken, hd, hr]
              · exact ih _ _ h u hu2
            · rw [if_neg hb] at h
              simp [ParseResult.isOk] at h
          · rw [if_neg hr] at h
            simp [ParseResult.isOk] at h
        · rw [if_neg hd] at h
          by_cases hs : c = '*'
          · rw [if_pos hs] at h
            by_cases hb : index < 81
            · rw [if_pos hb] at h
              rcases List.mem_cons.mp hu with rfl | hu2
              · simp [goodToken, hs]
              · exact ih _ _ h u hu2
            · rw [if_neg hb] at h
              simp [ParseResult.isOk] at h
          · rw [if_neg hs] at h
            simp [ParseResult.isOk] at h

theorem read_loop_good (ts : List (List Char)) :
    ∀ (fields : List Field) (index : Nat),
      (∀ t ∈ ts, goodToken t = true) → index + ts.length ≤ 81 → fields.length = 81 →
      ∃ g, read_loop ts fields index = ParseResult.ok g ∧ g.fields.length = 81 ∧
        ∀ j, index + ts.length ≤ j → g.fields[j]? = fields[j]? := by
  induction ts with
  | nil =>
    intro fields index _ _ hflen
    exact ⟨⟨fields⟩, rfl, hflen, fun j _ => rfl⟩
  | cons t ts ih =>
    intro fields index hgood hbound hflen
    have hb : index < 81 := by
      have := hbound
      simp at this
      omega
    have ht := hgood t (List.mem_cons_self t ts)
    have hrest : ∀ u ∈ ts, goodToken u = true := fun u hu => hgood u (List.mem_cons_of_mem t hu)
    cases t with
    | nil => simp [goodToken] at ht
    | cons c rest =>
      cases rest with
      | cons c2 rest2 => simp [goodToken] at ht
      | nil =>
        have hbound2 : index + 1 + ts.length ≤ 81 := by
          simp at hbound
          omega
        simp only [goodToken, Bool.or_eq_true, Bool.and_eq_true, decide_eq_true_eq] at ht
        rcases ht with ⟨hd, hr⟩ | hs
        · obtain ⟨g, hg, hglen, hgpres⟩ :=
            ih (fields.set index (Field.filled (c.toNat - 48))) (index + 1) hrest hbound2
              (by simp [hflen])
          refine ⟨g, ?_, hglen, ?_⟩
          · simpa [read_loop, hd, hr, hb] using hg
          · intro j hj
            have hj2 : index + 1 + ts.length ≤ j := by
              simp at hj
              omega
            rw [hgpres j hj2, List.getElem?_set_ne (by omega)]
        · obtain ⟨g, hg, hglen, hgpres⟩ :=
            ih (fields.set index Field.empty) (index + 1) hrest hbound2 (by simp [hflen])
          have hnd : ¬ c.isDigit = true := by
            subst hs
            decide
          refine ⟨g, ?_, hglen, ?_⟩
          · simpa [read_loop, hnd, hs, hb] using hg
          · intro j hj
            have hj2 : index + 1 + ts.length ≤ j := by
              simp at hj
              omega
            rw [hgpres j hj2, List.getElem?_set_ne (by omega)]

/-- C8: `read_from` fails (returns no grid) whenever the input stream
contains a whitespace-delimited token whose length is not exactly one
character, or a one-character token that is neither a digit 1-9 nor the
blank marker `*` (i.e. a token `goodToken` rejects, such as `"22"`, `"0"`,
`"L"`, `"$"`): the result is never `ParseResult.ok`, so no partial grid is
returned. -/
theorem read_from_rejects_bad_token (tokens : List (List Char))
    (h : ∃ t ∈ tokens, goodToken t = false) :
    (read_from tokens).isOk = false := by
  by_contra hcon
  have hok : (read_from tokens).isOk = true := by
    cases hres : (read_from tokens).isOk
    · exact absurd hres hcon
    · rfl
  obtain ⟨t, ht, hbad⟩ := h
  have := read_loop_ok_good tokens (List.replicate 81 Field.empty) 0 hok t ht
  rw [this] at hbad
  cases hbad

theorem read_from_rejects_bad_token_witness :
    (read_from [['1'], ['*'], ['2', '2'], ['0'], ['L'], ['$']]).isOk = false :=
  read_from_rejects_bad_token [['1'], ['*'], ['2', '2'], ['0'], ['L'], ['$']] (by decide)

/-- C9: there is an input stream of strictly more than 81 well-formed
tokens (here 82 copies of the token `"1"`) on which `read_from` does not
return a parse failure but hits the unchecked array write
`fields[index]` with `index = 81`, i.e. panics with an out-of-bounds
index (`ParseResult.panicOOB`). -/
theorem read_from_over_81_tokens_panics :
    81 < (List.replicate 82 ['1']).length ∧
    (∀ t ∈ List.replicate 82 ['1'], goodToken t = true) ∧
    read_from (List.replicate 82 ['1']) = ParseResult.panicOOB :=
  ⟨by decide, by decide, by decide⟩

/-- C10: `read_from` performs no low-side token-count check: on any stream
of fewer than 81 well-formed tokens it succeeds, the returned grid has 81
cells, and every cell index not covered by a token is `Empty`. -/
theorem read_from_short_input_ok (tokens : List (List Char))
    (hlen : tokens.length < 81) (hgood : ∀ t ∈ tokens, goodToken t = true)
    (i : Nat) (hi1 : tokens.length ≤ i) (hi2 : i < 81) :
    (read_from tokens).isOk = true ∧ (read_from tokens).cellsOut.length = 81 ∧
      (read_from tokens).cellsOut[i]? = some Field.empty := by
  obtain ⟨g, hg, hglen, hgpres⟩ :=
    read_loop_good tokens (List.replicate 81 Field.empty) 0 hgood (by omega) (by simp)
  unfold read_from
  rw [hg]
  refine ⟨rfl, hglen, ?_⟩
  have := hgpres i (by omega)
  rw [ParseResult.cellsOut, this, List.getElem?_replicate, if_pos hi2]

theorem read_from_short_input_ok_witness :
    (read_from [['5'], ['*']]).isOk = true ∧ (read_from [['5'], ['*']]).cellsOut.length = 81 ∧
      (read_from [['5'], ['*']]).cellsOut[7]? = some Field.empty :=
  read_from_short_input_ok [['5'], ['*']] (by decide) (by decide) 7 (by decide) (by decide)

/-! ## View lemmas -/

theorem getD_eq_getElem_opt {α : Type} (l : List α) (n : Nat) (d : α) (h : n < l.length) :
    some (l.getD n d) = l[n]? := by
  rw [List.getD_eq_getElem?_getD, List.getElem?_eq_getElem h]
  rfl

theorem row_of_eq (g : Sudoku) (i : Nat) (hi : i / 9 < 9) :
    g.row_of i = (g.fields.drop (9 * (i / 9))).take 9 := by
  rw [Sudoku.row_of, rowsOf, List.getD_eq_getElem?_getD, List.getElem?_map,
    List.getElem?_range hi]
  rfl

theorem length_row_of (g : Sudoku) (h81 : g.fields.length = 81) (i : Nat) (hi : i < 81) :
    (g.row_of i).length = 9 := by
  have h9 : i / 9 < 9 := by omega
  rw [row_of_eq g i h9]
  simp [h81]
  omega

theorem length_col_of (g : Sudoku) (i : Nat) : (g.col_of i).length = 9 := by
  simp [Sudoku.col_of, colCells]

theorem length_square_of (g : Sudoku) (i : Nat) : (g.square_of i).length = 9 := by
  simp [Sudoku.square_of, squareCells]

theorem row_of_getElem (g : Sudoku) (h81 : g.fields.length = 81) (i : Nat) (hi : i < 81)
    (k : Nat) (hk : k < 9) : (g.row_of i)[k]? = g.fields[9 * (i / 9) + k]? := by
  have h9 : i / 9 < 9 := by omega
  rw [row_of_eq g i h9, List.getElem?_take, if_pos hk, List.getElem?_drop]

theorem col_of_getElem (g : Sudoku) (h81 : g.fields.length = 81) (i : Nat) (hi : i < 81)
    (k : Nat) (hk : k < 9) : (g.col_of i)[k]? = g.fields[i % 9 + 9 * k]? := by
  have hidx : i % 9 + 9 * k < 81 := by omega
  rw [Sudoku.col_of, colCells, List.getElem?_map, List.getElem?_range hk]
  exact getD_eq_getElem_opt g.fields (i % 9 + 9 * k) Field.empty (by omega)

theorem squareCells_getElem (fields : List Field) (h81 : fields.length = 81) (sq : Nat)
    (hsq : sq < 9) (k : Nat) (hk : k < 9) :
    (squareCells fields sq)[k]? = fields[(k % 3 + 3 * (sq % 3)) + 9 * (k / 3 + 3 * (sq / 3))]? := by
  have hidx : (k % 3 + 3 * (sq % 3)) + 9 * (k / 3 + 3 * (sq / 3)) < 81 := by omega
  rw [squareCells, List.getElem?_map, List.getElem?_range hk]
  exact getD_eq_getElem_opt fields _ Field.empty (by omega)

/-- C7: the index-mapping rules of the three views.  For `i < 81` with
`r = i / 9` and `c = i % 9`: `row_of i` yields the cells at linear indices
`9r …​ 9r+9` in order, `col_of i` the cells at `c, c+9, …, c+72` in order,
and `square_of i` the cells at `3(b%3) + 27(b/3) + (k%3) + 9(k/3)` for
`k = 0…8` in order, where `b = c/3 + 3(r/3)` is the block containing `i`
in the row-major 3×3 tiling. -/
theorem views_index_spec (g : Sudoku) (h81 : g.fields.length = 81) (i : Nat) (hi : i < 81)
    (k : Nat) (hk : k < 9) :
    (g.row_of i).length = 9 ∧ (g.col_of i).length = 9 ∧ (g.square_of i).length = 9 ∧
    (g.row_of i)[k]? = g.fields[9 * (i / 9) + k]? ∧
    (g.col_of i)[k]? = g.fields[i % 9 + 9 * k]? ∧
    (g.square_of i)[k]? =
      g.fields[3 * ((i % 9 / 3 + 3 * (i / 9 / 3)) % 3) + 27 * ((i % 9 / 3 + 3 * (i / 9 / 3)) / 3)
        + (k % 3 + 9 * (k / 3))]? := by
  refine ⟨length_row_of g h81 i hi, length_col_of g i, length_square_of g i,
    row_of_getElem g h81 i hi k hk, col_of_getElem g h81 i hi k hk, ?_⟩
  rw [Sudoku.square_of, squareCells_getElem g.fields h81 _ (by omega) k hk]
  congr 1
  omega

theorem views_index_spec_witness :
    (validGrid.row_of 40).length = 9 ∧ (validGrid.col_of 40).length = 9 ∧
    (validGrid.square_of 40).length = 9 ∧
    (validGrid.row_of 40)[4]? = validGrid.fields[9 * (40 / 9) + 4]? ∧
    (validGrid.col_of 40)[4]? = validGrid.fields[40 % 9 + 9 * 4]? ∧
    (validGrid.square_of 40)[4]? =
      validGrid.fields[3 * ((40 % 9 / 3 + 3 * (40 / 9 / 3)) % 3)
        + 27 * ((40 % 9 / 3 + 3 * (40 / 9 / 3)) / 3) + (4 % 3 + 9 * (4 / 3))]? :=
  views_index_spec validGrid (by decide) 40 (by decide) 4 (by decide)

/-- C5: for every grid and index `i < 81`, `get_possible_values i`
contains exactly the digits `d ∈ {1..9}` such that `Filled d` occurs in
none of the row, the column and the square of `i`, and its elements are
enumerated in ascending order. -/
theorem get_possible_values_spec (g : Sudoku) (i : Nat) (hi : i < 81) (d : Nat) :
    (d ∈ g.get_possible_values i ↔
      (1 ≤ d ∧ d ≤ 9 ∧ Field.filled d ∉ g.row_of i ∧ Field.filled d ∉ g.col_of i ∧
        Field.filled d ∉ g.square_of i)) ∧
    (g.get_possible_values i).Pairwise (fun a b => a < b) := by
  constructor
  · rw [Sudoku.get_possible_values]
    simp only [List.mem_filter, Bool.and_eq_true, Bool.not_eq_true', decide_eq_false_iff_not]
    constructor
    · rintro ⟨hmem, ⟨h1, h2⟩, h3⟩
      have hd : 1 ≤ d ∧ d ≤ 9 := by
        simp at hmem
        omega
      exact ⟨hd.1, hd.2, h1, h2, h3⟩
    · rintro ⟨h1, h2, h3, h4, h5⟩
      refine ⟨?_, ⟨h3, h4⟩, h5⟩
      simp only [List.mem_cons]
      omega
  · exact List.Pairwise.filter _ (by decide)

theorem get_possible_values_spec_witness :
    (5 ∈ (Sudoku.mk (List.replicate 81 Field.empty)).get_possible_values 0 ↔
      (1 ≤ 5 ∧ 5 ≤ 9 ∧
        Field.filled 5 ∉ (Sudoku.mk (List.replicate 81 Field.empty)).row_of 0 ∧
        Field.filled 5 ∉ (Sudoku.mk (List.replicate 81 Field.empty)).col_of 0 ∧
        Field.filled 5 ∉ (Sudoku.mk (List.replicate 81 Field.empty)).square_of 0)) ∧
    ((Sudoku.mk (List.replicate 81 Field.empty)).get_possible_values 0).Pairwise
      (fun a b => a < b) :=
  get_possible_values_spec (Sudoku.mk (List.replicate 81 Field.empty)) 0 (by decide) 5

/-! ## Validity (`is_valid`) -/

/-- Well-formedness of a cell in the program's data model (§3 of the
design): `Empty` or `Filled d` with `d` a digit 1–9.  Every cell the
program ever constructs (parser and solver) satisfies this. -/
def FieldWF : Field → Prop
  | Field.empty => True
  | Field.filled d => 1 ≤ d ∧ d ≤ 9

instance : DecidablePred FieldWF := fun f =>
  match f with
  | Field.empty => isTrue trivial
  | Field.filled d => inferInstanceAs (Decidable (1 ≤ d ∧ d ≤ 9))

/-- The digits 1–9 as cells; a view is "a permutation of 1–9" when it is a
permutation of this list. -/
def digitFields : List Field :=
  [1, 2, 3, 4, 5, 6, 7, 8, 9].map Field.filled

theorem dedup_length_iff (v : List Field) (h9 : v.length = 9) :
    v.dedup.length = 9 ↔ v.Nodup := by
  constructor
  · intro h
    have hsub := List.dedup_sublist v
    have heq := hsub.eq_of_length (by rw [h, h9])
    rw [← heq]
    exact List.nodup_dedup v
  · intro h
    rw [List.dedup_eq_self.mpr h, h9]

theorem viewOk_iff (v : List Field) (h9 : v.length = 9) :
    viewOk v = true ↔ Field.empty ∉ v ∧ v.Nodup := by
  rw [viewOk]
  simp [dedup_length_iff v h9]

theorem length_of_mem_rows (g : Sudoku) (h81 : g.fields.length = 81) (v : List Field)
    (hv : v ∈ g.rows) : v.length = 9 := by
  simp only [Sudoku.rows, rowsOf, List.mem_map, List.mem_range] at hv
  obtain ⟨r, hr, rfl⟩ := hv
  simp [h81]
  omega

theorem length_of_mem_cols (g : Sudoku) (v : List Field) (hv : v ∈ g.cols) : v.length = 9 := by
  simp only [Sudoku.cols, List.mem_map, List.mem_range] at hv
  obtain ⟨c, hc, rfl⟩ := hv
  simp [colCells]

theorem length_of_mem_squares (g : Sudoku) (v : List Field) (hv : v ∈ g.squares) :
    v.length = 9 := by
  simp only [Sudoku.squares, List.mem_map, List.mem_range] at hv
  obtain ⟨sq, hsq, rfl⟩ := hv
  simp [squareCells]

theorem mem_fields_of_mem_rows (g : Sudoku) (v : List Field) (hv : v ∈ g.rows)
    (x : Field) (hx : x ∈ v) : x ∈ g.fields := by
  simp only [Sudoku.rows, rowsOf, List.mem_map, List.mem_range] at hv
  obtain ⟨r, hr, rfl⟩ := hv
  exact List.drop_subset _ _ (List.take_subset _ _ hx)

theorem mem_fields_of_mem_cols (g : Sudoku) (h81 : g.fields.length = 81) (v : List Field)
    (hv : v ∈ g.cols) (x : Field) (hx : x ∈ v) : x ∈ g.fields := by
  simp only [Sudoku.cols, List.mem_map, List.mem_range] at hv
  obtain ⟨c, hc, rfl⟩ := hv
  simp only [colCells, List.mem_map, List.mem_range] at hx
  obtain ⟨k, hk, rfl⟩ := hx
  refine List.mem_iff_getElem?.mpr ⟨c + 9 * k, ?_⟩
  exact (getD_eq_getElem_opt g.fields (c + 9 * k) Field.empty (by omega)).symm

theorem mem_fields_of_mem_squares (g : Sudoku) (h81 : g.fields.length = 81) (v : List Field)
    (hv : v ∈ g.squares) (x : Field) (hx : x ∈ v) : x ∈ g.fields := by
  simp only [Sudoku.squares, List.mem_map, List.mem_range] at hv
  obtain ⟨sq, hsq, rfl⟩ := hv
  simp only [squareCells, List.mem_map, List.mem_range] at hx
  obtain ⟨k, hk, rfl⟩ := hx
  refine List.mem_iff_getElem?.mpr ⟨k % 3 + 3 * (sq % 3) + 9 * (k / 3 + 3 * (sq / 3)), ?_⟩
  exact (getD_eq_getElem_opt g.fields _ Field.empty (by omega)).symm

theorem view_perm_iff (v : List Field) (h9 : v.length = 9) (hwf : ∀ x ∈ v, FieldWF x) :
    (Field.empty ∉ v ∧ v.Nodup) ↔ v.Perm digitFields := by
  constructor
  · rintro ⟨hne, hnd⟩
    have hsub : v ⊆ digitFields := by
      intro x hx
      have hx2 := hwf x hx
      cases x with
      | empty => exact absurd hx hne
      | filled d =>
        have hd : 1 ≤ d ∧ d ≤ 9 := hx2
        simp only [digitFields, List.mem_map]
        refine ⟨d, ?_, rfl⟩
        have h1 := hd.1
        have h2 := hd.2
        interval_cases d <;> decide
    exact (hnd.subperm hsub).perm_of_length_le (by simp [digitFields, h9])
  · intro hp
    constructor
    · rw [hp.mem_iff]
      decide
    · exact hp.symm.nodup (by decide)

theorem is_valid_iff_core (g : Sudoku) (h81 : g.fields.length = 81) :
    g.is_valid = true ↔
      (∀ v ∈ g.rows, Field.empty ∉ v ∧ v.Nodup) ∧ (∀ v ∈ g.cols, Field.empty ∉ v ∧ v.Nodup) ∧
        (∀ v ∈ g.squares, Field.empty ∉ v ∧ v.Nodup) := by
  rw [Sudoku.is_valid]
  simp only [Bool.and_eq_true, List.all_eq_true, and_assoc]
  refine and_congr ?_ (and_congr ?_ ?_)
  · exact ball_congr fun v hv => viewOk_iff v (length_of_mem_rows g h81 v hv)
  · exact ball_congr fun v hv => viewOk_iff v (length_of_mem_cols g v hv)
  · exact ball_congr fun v hv => viewOk_iff v (length_of_mem_squares g v hv)

/-- C6: for an 81-cell grid (with well-formed cells), `is_valid` is true
iff every row view, column view and block view contains no `Empty` cell
and its 9 values are pairwise distinct — equivalently, iff each of the 27
views is a permutation of the digits 1 through 9. -/
theorem is_valid_iff_views (g : Sudoku) (h81 : g.fields.length = 81)
    (hwf : ∀ f ∈ g.fields, FieldWF f) :
    (g.is_valid = true ↔
      (∀ v ∈ g.rows, Field.empty ∉ v ∧ v.Nodup) ∧ (∀ v ∈ g.cols, Field.empty ∉ v ∧ v.Nodup) ∧
        (∀ v ∈ g.squares, Field.empty ∉ v ∧ v.Nodup)) ∧
    (g.is_valid = true ↔
      (∀ v ∈ g.rows, v.Perm digitFields) ∧ (∀ v ∈ g.cols, v.Perm digitFields) ∧
        (∀ v ∈ g.squares, v.Perm digitFields)) := by
  have hcore := is_valid_iff_core g h81
  refine ⟨hcore, hcore.trans (and_congr ?_ (and_congr ?_ ?_))⟩
  · exact ball_congr fun v hv =>
      view_perm_iff v (length_of_mem_rows g h81 v hv)
        (fun x hx => hwf x (mem_fields_of_mem_rows g v hv x hx))
  · exact ball_congr fun v hv =>
      view_perm_iff v (length_of_mem_cols g v hv)
        (fun x hx => hwf x (mem_fields_of_mem_cols g h81 v hv x hx))
  · exact ball_congr fun v hv =>
      view_perm_iff v (length_of_mem_squares g v hv)
        (fun x hx => hwf x (mem_fields_of_mem_squares g h81 v hv x hx))

theorem is_valid_iff_views_witness :
    validGrid.is_valid = true ∧ Field.empty ∉ validGrid.rows.getD 0 [] ∧
      (validGrid.rows.getD 0 []).Nodup ∧ (validGrid.rows.getD 0 []).Perm digitFields := by
  have h := is_valid_iff_views validGrid (by decide) (by decide)
  have hmem : validGrid.rows.getD 0 [] ∈ validGrid.rows := by decide
  have hvalid : validGrid.is_valid = true := by decide
  exact ⟨hvalid, (h.1.mp hvalid).1 _ hmem |>.1, (h.1.mp hvalid).1 _ hmem |>.2,
    (h.2.mp hvalid).1 _ hmem⟩

/-! ## Solver lemmas -/

theorem solve_impl_of_no_empty (g : Sudoku) (h : g.get_first_empty_index = none) :
    solve_impl g = if g.is_valid then some g else none := by
  unfold solve_impl
  split
  · rfl
  · simp_all

theorem solve_impl_of_first_empty (g : Sudoku) (i : Nat)
    (h : g.get_first_empty_index = some i) :
    solve_impl g = solve_try g i (first_empty_spec g i h) (g.get_possible_values i) := by
  unfold solve_impl
  split
  · rename_i h2
    rw [h2] at h
    cases h
  · rename_i j h2
    rw [h2] at h
    cases h
    rfl

theorem solve_try_eq_cases (g : Sudoku) (i : Nat) (pf : g.fields[i]? = some Field.empty) :
    ∀ (vs : List Nat) (s : Sudoku), solve_try g i pf vs = some s →
      ∃ v ∈ vs, solve_impl (g.set_field i v) = some s := by
  intro vs
  induction vs with
  | nil =>
    intro s h
    unfold solve_try at h
    cases h
  | cons v vs ih =>
    intro s h
    unfold solve_try at h
    cases hres : solve_impl (g.set_field i v) with
    | some ans =>
      rw [hres] at h
      simp only [Option.some.injEq] at h
      exact ⟨v, List.mem_cons_self v vs, by rw [hres, h]⟩
    | none =>
      rw [hres] at h
      obtain ⟨u, hu, hu2⟩ := ih s h
      exact ⟨u, List.mem_cons_of_mem v hu, hu2⟩

theorem countEmpty_pos (l : List Field) (i : Nat) (h : l[i]? = some Field.empty) :
    0 < countEmpty l := by
  rw [countEmpty, List.countP_pos]
  exact ⟨Field.empty, List.mem_iff_getElem?.mpr ⟨i, h⟩, by simp⟩

theorem mem_get_possible_values_range (g : Sudoku) (i v : Nat)
    (h : v ∈ g.get_possible_values i) : 1 ≤ v ∧ v ≤ 9 := by
  rw [Sudoku.get_possible_values] at h
  have hm := (List.mem_filter.mp h).1
  simp at hm
  omega

theorem solve_impl_sound_none (g s : Sudoku) (hfe : g.get_first_empty_index = none)
    (h : solve_impl g = some s) :
    s.is_valid = true ∧ s.fields.length = g.fields.length ∧
      (∀ (j d : Nat), g.fields[j]? = some (Field.filled d) → s.fields[j]? = some (Field.filled d)) ∧
      ((∀ f ∈ g.fields, FieldWF f) → ∀ f ∈ s.fields, FieldWF f) := by
  rw [solve_impl_of_no_empty g hfe] at h
  by_cases hv : g.is_valid = true
  · rw [if_pos hv] at h
    have hgs := Option.some.inj h
    subst hgs
    exact ⟨hv, rfl, fun j d hj => hj, fun hwf => hwf⟩
  · rw [if_neg hv] at h
    cases h

theorem solve_impl_sound_aux (n : Nat) :
    ∀ g s : Sudoku, countEmpty g.fields ≤ n → solve_impl g = some s →
      s.is_valid = true ∧ s.fields.length = g.fields.length ∧
      (∀ (j d : Nat), g.fields[j]? = some (Field.filled d) → s.fields[j]? = some (Field.filled d)) ∧
      ((∀ f ∈ g.fields, FieldWF f) → ∀ f ∈ s.fields, FieldWF f) := by
  induction n with
  | zero =>
    intro g s hle h
    cases hfe : g.get_first_empty_index with
    | none => exact solve_impl_sound_none g s hfe h
    | some i =>
      have := countEmpty_pos g.fields i (first_empty_spec g i hfe)
      omega
  | succ n ih =>
    intro g s hle h
    cases hfe : g.get_first_empty_index with
    | none => exact solve_impl_sound_none g s hfe h
    | some i =>
      rw [solve_impl_of_first_empty g i hfe] at h
      obtain ⟨v, hv, hrec⟩ := solve_try_eq_cases g i (first_empty_spec g i hfe) _ s h
      have hempty : g.fields[i]? = some Field.empty := first_empty_spec g i hfe
      have hcnt := countEmpty_set g.fields i v hempty
      have hle2 : countEmpty (g.set_field i v).fields ≤ n := by
        have hcnt2 : countEmpty (g.set_field i v).fields + 1 = countEmpty g.fields := hcnt
        omega
      obtain ⟨h1, h2, h3, h4⟩ := ih (g.set_field i v) s hle2 hrec
      refine ⟨h1, ?_, ?_, ?_⟩
      · rw [h2]
        show (g.fields.set i (Field.filled v)).length = g.fields.length
        simp
      · intro j d hj
        have hji : i ≠ j := by
          intro heq
          rw [← heq, hempty] at hj
          cases hj
        apply h3
        show (g.fields.set i (Field.filled v))[j]? = some (Field.filled d)
        rw [List.getElem?_set_ne hji, hj]
      · intro hwf
        apply h4
        intro f hf
        rcases List.mem_or_eq_of_mem_set hf with hf2 | rfl
        · exact hwf f hf2
        · exact mem_get_possible_values_range g i v hv

theorem solve_impl_sound (g s : Sudoku) (h : solve_impl g = some s) :
    s.is_valid = true ∧ s.fields.length = g.fields.length ∧
      (∀ (j d : Nat), g.fields[j]? = some (Field.filled d) → s.fields[j]? = some (Field.filled d)) ∧
      ((∀ f ∈ g.fields, FieldWF f) → ∀ f ∈ s.fields, FieldWF f) :=
  solve_impl_sound_aux (countEmpty g.fields) g s le_rfl h

theorem mem_row_of_mem_fields (g : Sudoku) (h81 : g.fields.length = 81) (x : Field)
    (hx : x ∈ g.fields) : ∃ v ∈ g.rows, x ∈ v := by
  obtain ⟨n, hn⟩ := List.mem_iff_getElem?.mp hx
  have hnlt : n < 81 := by
    by_contra hge
    rw [List.getElem?_eq_none (by omega)] at hn
    cases hn
  refine ⟨g.row_of n, ?_, ?_⟩
  · rw [row_of_eq g n (by omega), Sudoku.rows, rowsOf]
    exact List.mem_map.mpr ⟨n / 9, List.mem_range.mpr (by omega), rfl⟩
  · refine List.mem_iff_getElem?.mpr ⟨n % 9, ?_⟩
    rw [row_of_getElem g h81 n hnlt (n % 9) (by omega)]
    have heq : 9 * (n / 9) + n % 9 = n := by omega
    rw [heq, hn]

/-! ## Unsolvability (C1) -/

/-- Grid `s` keeps every `Filled` cell of `g` at the same index with the same
digit (conservation of givens). -/
def ExtendsGrid (g s : Sudoku) : Prop :=
  ∀ (i d : Nat), g.fields[i]? = some (Field.filled d) → s.fields[i]? = some (Field.filled d)

/-- Grid `s` is a completion of the 81-cell grid `g` satisfying the
row/column/block distinctness constraints: 81 cells, extends the givens of
`g`, every cell holds a digit 1–9, and every row, column and block view
has pairwise-distinct entries. -/
def Solves (g s : Sudoku) : Prop :=
  s.fields.length = 81 ∧ ExtendsGrid g s ∧
  (∀ f ∈ s.fields, ∃ d, 1 ≤ d ∧ d ≤ 9 ∧ f = Field.filled d) ∧
  (∀ v ∈ s.rows, v.Nodup) ∧ (∀ v ∈ s.cols, v.Nodup) ∧ (∀ v ∈ s.squares, v.Nodup)

theorem solve_some_solves (g s : Sudoku) (h81 : g.fields.length = 81)
    (hwf : ∀ f ∈ g.fields, FieldWF f) (hs : solve_impl g = some s) : Solves g s := by
  obtain ⟨hvalid, hlen, hext, hwfp⟩ := solve_impl_sound g s hs
  have hlen81 : s.fields.length = 81 := by rw [hlen, h81]
  have hswf := hwfp hwf
  have hviews := (is_valid_iff_core s hlen81).mp hvalid
  refine ⟨hlen81, hext, ?_, fun v hv => (hviews.1 v hv).2, fun v hv => (hviews.2.1 v hv).2,
    fun v hv => (hviews.2.2 v hv).2⟩
  intro f hf
  have hf2 := hswf f hf
  cases f with
  | empty =>
    obtain ⟨v, hv, hfv⟩ := mem_row_of_mem_fields s hlen81 Field.empty hf
    exact absurd hfv (hviews.1 v hv).1
  | filled d => exact ⟨d, hf2.1, hf2.2, rfl⟩

/-- C1: on any syntactically well-formed 81-cell grid that has no
completion satisfying the row/column/block distinctness constraints,
`solve` produces the unsolvable outcome (`none`, the `None` of
`solve_impl` that the public wrapper's `unwrap` turns into a panic):
it never returns a fabricated or partial grid. -/
theorem solve_unsolvable_none (g : Sudoku) (h81 : g.fields.length = 81)
    (hwf : ∀ f ∈ g.fields, FieldWF f) (hns : ∀ s, ¬ Solves g s) : g.solve = none := by
  cases hs : g.solve with
  | none => rfl
  | some s => exact absurd (solve_some_solves g s h81 hwf hs) (hns s)

theorem allOnes_not_solvable (s : Sudoku) : ¬ Solves allOnes s := by
  rintro ⟨hlen, hext, hfill, hrows, hcols, hsq⟩
  have hext2 : ∀ (i d : Nat), allOnes.fields[i]? = some (Field.filled d) →
      s.fields[i]? = some (Field.filled d) := hext
  have h0 : s.fields[0]? = some (Field.filled 1) := hext2 0 1 (by decide)
  have h1 : s.fields[1]? = some (Field.filled 1) := hext2 1 1 (by decide)
  have hrow : s.row_of 0 ∈ s.rows := by
    rw [row_of_eq s 0 (by omega), Sudoku.rows, rowsOf]
    exact List.mem_map.mpr ⟨0, List.mem_range.mpr (by omega), rfl⟩
  have hnd := hrows _ hrow
  have hg0 : (s.row_of 0)[0]? = some (Field.filled 1) := by
    have := row_of_getElem s hlen 0 (by omega) 0 (by omega)
    simpa [h0] using this
  have hg1 : (s.row_of 0)[1]? = some (Field.filled 1) := by
    have := row_of_getElem s hlen 0 (by omega) 1 (by omega)
    simpa [h1] using this
  have h01 : (0 : Nat) = 1 := by
    refine List.getElem?_inj ?_ hnd (by rw [hg0, hg1])
    rw [length_row_of s hlen 0 (by omega)]
    omega
  cases h01

theorem solve_unsolvable_none_witness : allOnes.solve = none :=
  solve_unsolvable_none allOnes (by decide) (by decide) allOnes_not_solvable

/-! ## Solved output (C2, C3, C4) -/

/-- C2: for every input grid accepted by the parser on which `solve`
returns success, the returned grid satisfies `is_valid`. -/
theorem solve_output_is_valid (tokens : List (List Char)) (g s : Sudoku)
    (hp : read_from tokens = ParseResult.ok g) (hs : g.solve = some s) :
    s.is_valid = true :=
  (solve_impl_sound g s hs).1

theorem validGrid_solve : validGrid.solve = some validGrid := by
  show solve_impl validGrid = some validGrid
  rw [solve_impl_of_no_empty validGrid (by decide), if_pos (by decide)]

theorem solve_output_is_valid_witness : validGrid.is_valid = true :=
  solve_output_is_valid validTokens validGrid validGrid (by decide) validGrid_solve

/-- C3: for every grid on which `solve` returns success, every cell that
held `Filled d` in the input still holds `Filled d` with the identical
digit in the output: the solver never overwrites a given. -/
theorem solve_preserves_givens (g s : Sudoku) (hs : g.solve = some s) (i d : Nat)
    (hg : g.fields[i]? = some (Field.filled d)) : s.fields[i]? = some (Field.filled d) :=
  (solve_impl_sound g s hs).2.2.1 i d hg

theorem solve_preserves_givens_witness : validGrid.fields[0]? = some (Field.filled 1) :=
  solve_preserves_givens validGrid validGrid validGrid_solve 0 1 (by decide)

/-- C4: the solver terminates on every 81-cell grid; each recursive call
of `solve_impl` (on `set_field` at the first empty index) is made on a
grid with exactly one fewer `Empty` cell, and the number of `Empty` cells
is at most 81, bounding the recursion depth by 81.  (Totality of the
recursion is what lets `solve_impl` be accepted as a terminating function
with `countEmpty` as measure.) -/
theorem solver_step_decreases_empties (g : Sudoku) (i v : Nat)
    (h81 : g.fields.length = 81) (h : g.get_first_empty_index = some i) :
    countEmpty (g.set_field i v).fields + 1 = countEmpty g.fields ∧
      countEmpty g.fields ≤ 81 := by
  have hempty := first_empty_spec g i h
  refine ⟨countEmpty_set g.fields i v hempty, ?_⟩
  rw [← h81, countEmpty]
  exact List.countP_le_length _

theorem solver_step_decreases_empties_witness :
    countEmpty ((Sudoku.mk (List.replicate 81 Field.empty)).set_field 0 5).fields + 1 =
      countEmpty (Sudoku.mk (List.replicate 81 Field.empty)).fields ∧
    countEmpty (Sudoku.mk (List.replicate 81 Field.empty)).fields ≤ 81 :=
  solver_step_decreases_empties (Sudoku.mk (List.replicate 81 Field.empty)) 0 5
    (by decide) (by decide)

end RustySudoku
